import Mathlib

/-!
Verification of the `create-file-tree` repository (two Python variants,
`create-file-tree.py` and `file-tree-maker-v5.py`) against its
natural-language specification.

The development shallowly embeds both scripts:
* filenames and output lines are `String`s (character lists at ASCII level;
  Python's `\d` and `\w` are modelled at their ASCII meaning);
* the filesystem seen by the tree walker is an inductive `Node` tree, with a
  directory's listing either succeeding (`ListResult.ok`), raising
  `FileNotFoundError` (`ListResult.notFound`) or raising a `PermissionError`
  (`ListResult.permission`);
* a file records what opening it as a zip archive would yield
  (`ZipRes.ok entries` or `ZipRes.bad` for `zipfile.BadZipFile`);
* the mutable `output_lines` accumulator is modelled by returning the list of
  lines each call appends; a propagating Python exception is an
  `Except.error`.
-/

/-! ### String helpers (Python primitives used by the scripts) -/

/-- Lexicographic (code-point) comparison of character lists: the order Python
uses to compare `str` values in `sorted(...)`. -/
def lexLe : List Char → List Char → Bool
  | [], _ => true
  | _ :: _, [] => false
  | a :: as, b :: bs => if a < b then true else if b < a then false else lexLe as bs

/-- Python `s1 <= s2` on strings. -/
def strLe (a b : String) : Bool := lexLe a.data b.data

/-- Python `s.startswith(p)`. -/
def strStartsWith (s p : String) : Bool := p.data.isPrefixOf s.data

/-- Python `s.endswith(p)`. -/
def strEndsWith (s p : String) : Bool := p.data.isSuffixOf s.data

/-- Python slicing `s[n:]`. -/
def strDrop (s : String) (n : Nat) : String := ⟨s.data.drop n⟩

/-- `os.path.join root name` for a root that does not already end in a
separator. -/
def joinPath (root name : String) : String := root ++ "/" ++ name

/-- Python `f"{n:02d}"`: decimal rendering zero-padded to width 2. -/
def pad2 (n : Nat) : String := if n < 10 then "0" ++ Nat.repr n else Nat.repr n

/-- Number of leading space characters of a line. -/
def leadingSpaces (s : String) : Nat := (s.data.takeWhile (fun c => c == ' ')).length

/-- Python `int` applied to a digit string, as used on the captured frame
number. -/
def digitsVal (l : List Char) : Nat := l.foldl (fun acc c => acc * 10 + (c.toNat - 48)) 0

/-! ### The frame-sequence regular expression

Both variants classify filenames with
`re.compile(r"(.*?)(\d{4})\.(\w+)$").match`.  The embedding below reproduces
the backtracking semantics of this anchored match at ASCII level:

* `(.*?)` is lazy, so the base group is grown one character at a time from the
  left; `.` does not match a newline;
* `(\d{4})` is exactly four digit characters;
* `\.` is a literal dot;
* `(\w+)$` succeeds exactly when the remainder is a nonempty run of word
  characters, optionally followed by one final newline (Python's `$` also
  matches just before a terminal newline); the group captures only the word
  characters.
-/

/-- ASCII `\w`: letters, digits and underscore. -/
def isWordChar (c : Char) : Bool := c.isAlphanum || c == '_'

/-- Does `(\w+)$` match the whole remainder `l`? -/
def wplusEnd : List Char → Bool
  | [] => false
  | [c] => isWordChar c
  | [c, d] => isWordChar c && (isWordChar d || d == '\n')
  | c :: rest => isWordChar c && wplusEnd rest

/-- The characters captured by `(\w+)` when `wplusEnd` holds: the remainder
without a final newline, if any. -/
def extOf (l : List Char) : List Char := if l.all isWordChar then l else l.dropLast

/-- Try to match `(\d{4})\.(\w+)$` against all of `l`; on success return the
captures (frame digits, extension). -/
def tailGroups : List Char → Option (List Char × List Char)
  | d1 :: d2 :: d3 :: d4 :: c :: rest =>
    if d1.isDigit && d2.isDigit && d3.isDigit && d4.isDigit && c == '.' && wplusEnd rest then
      some ([d1, d2, d3, d4], extOf rest)
    else none
  | _ => none

/-- The full lazy match of `(.*?)(\d{4})\.(\w+)$` against `l`: the shortest
base prefix (not containing a newline) whose remainder matches the tail
pattern, together with the three captured groups. -/
def findSeq : List Char → Option (List Char × List Char × List Char)
  | [] => none
  | c :: rest =>
    match tailGroups (c :: rest) with
    | some (fr, ex) => some ([], fr, ex)
    | none =>
      if c == '\n' then none
      else (findSeq rest).map (fun g => (c :: g.1, g.2.1, g.2.2))

/-- `pattern.match(filename)`, returning the `(base, frame, ext)` capture
groups as strings. -/
def matchFile (f : String) : Option (String × String × String) :=
  (findSeq f.data).map (fun g => (⟨g.1⟩, ⟨g.2.1⟩, ⟨g.2.2⟩))

/-- The condensed summary line `f"{indent}{base}[image sequence].{ext}"` both
variants emit for a sequence group keyed by `(base, ext)`. -/
def condLine (indent : String) (k : String × String) : String :=
  indent ++ k.1 ++ "[image sequence]." ++ k.2

/-! ### Filesystem model shared by both variants -/

/-- Outcome of opening a file with `zipfile.ZipFile`: the ordered entry names
of its index, or `zipfile.BadZipFile`. -/
inductive ZipRes where
  | ok (entries : List String)
  | bad
deriving DecidableEq

/-- Outcome of `os.listdir` on a directory: its entries (in on-disk order,
the walker sorts them), or the exception it raises. -/
inductive ListResult (α : Type) where
  | ok (entries : List α)
  | notFound
  | permission
deriving DecidableEq

/-- A filesystem node: a directory with a listing outcome, or a plain file
carrying what opening it as a zip would yield. -/
inductive Node where
  | dir (ls : ListResult (String × Node))
  | file (z : ZipRes)

/-- `os.path.isdir`. -/
def Node.isDir : Node → Bool
  | .dir _ => true
  | .file _ => false

/-- An uncaught Python exception aborting the traversal. -/
inductive PyError where
  | permissionError
deriving DecidableEq

/-- The zip-opening oracle of a directory: `list_file_or_zip` reopens
`os.path.join(root_path, filename)`, i.e. looks the file up by name in the
directory just listed. -/
def zresOf (entries : List (String × Node)) : String → ZipRes :=
  fun nm =>
    match entries.find? (fun e => e.1 == nm) with
    | some (_, Node.file z) => z
    | _ => ZipRes.bad

/-! ### `create-file-tree.py` (first variant) -/

namespace CreateFileTree

/-- The skip test of the first variant's entry loop: hidden entries,
`.DS_Store`, and its own text output file. -/
def skipEntry (e : String) : Bool :=
  strStartsWith e "." || e == ".DS_Store" || e == "file_list.txt"

/-- First loop of `format_image_sequences`: fold the filenames into the
insertion-ordered `defaultdict(set)` keyed by `(base, ext)` (the set holding
`int(frame)` values) and the list of non-matching files. -/
def addFrame (gs : List ((String × String) × List Nat)) (k : String × String) (n : Nat) :
    List ((String × String) × List Nat) :=
  match gs with
  | [] => [(k, [n])]
  | (k', v) :: rest =>
    if k' = k then (k', if v.contains n then v else v ++ [n]) :: rest
    else (k', v) :: addFrame rest k n

/-- Classify all filenames of one directory level: the sequence groups (in
key-insertion order) and the non-matching files (in listing order). -/
def buildGroups (files : List String) :
    List ((String × String) × List Nat) × List String :=
  files.foldl
    (fun acc f =>
      match matchFile f with
      | some (b, fr, e) => (addFrame acc.1 (b, e) (digitsVal fr.data), acc.2)
      | none => (acc.1, acc.2 ++ [f]))
    ([], [])

/-- `format_image_sequences(files, indent, output_lines)`: one condensed line
per group (every group, singletons included), then the non-matching files. -/
def format_image_sequences (files : List String) (indent : String) : List String :=
  let (gs, others) := buildGroups files
  gs.map (fun g => condLine indent g.1) ++ others.map (fun f => indent ++ f)

/-- `list_all_files_func(files, indent, output_lines)`: one plain line per
file. -/
def list_all_files_func (files : List String) (indent : String) : List String :=
  files.map (fun f => indent ++ f)

/-- `get_unique_output_file`'s unbounded `while True` search, modelled by the
least free counter; the hypothesis is the loop's termination condition (some
counter's filename does not exist). `ex` is `os.path.exists`. -/
def freeCounter (root : String) (ex : String → Bool)
    (h : ∃ n, 2 ≤ n ∧ ex (joinPath root (("file_list-" ++ pad2 n) ++ ".txt")) = false) : Nat :=
  Nat.find h

/-- `get_unique_output_file(root_directory)`. -/
def get_unique_output_file (root : String) (ex : String → Bool)
    (h : ∃ n, 2 ≤ n ∧ ex (joinPath root (("file_list-" ++ pad2 n) ++ ".txt")) = false) : String :=
  if ex (joinPath root "file_list.txt") = false then joinPath root "file_list.txt"
  else joinPath root (("file_list-" ++ pad2 (freeCounter root ex h)) ++ ".txt")

end CreateFileTree

/-! ### `file-tree-maker-v5.py` (second variant) -/

namespace FileTreeMakerV5

/-- The skip test of the second variant's entry loop: it additionally skips
its own PDF output file. -/
def skipEntry (e : String) : Bool :=
  strStartsWith e "." || e == ".DS_Store" || e == "file_list.txt" || e == "file_list.pdf"

/-- First loop of `format_image_sequences`: fold the filenames into the
insertion-ordered `defaultdict(list)` keyed by `(base, ext)` (the list holding
the matched filenames) and the list of non-matching files. -/
def addFrameFile (gs : List ((String × String) × List String)) (k : String × String)
    (f : String) : List ((String × String) × List String) :=
  match gs with
  | [] => [(k, [f])]
  | (k', v) :: rest =>
    if k' = k then (k', v ++ [f]) :: rest
    else (k', v) :: addFrameFile rest k f

/-- Classify all filenames of one directory level: the sequence groups (in
key-insertion order, holding their member filenames) and the non-matching
files (in listing order). -/
def buildGroups (files : List String) :
    List ((String × String) × List String) × List String :=
  files.foldl
    (fun acc f =>
      match matchFile f with
      | some (b, _, e) => (addFrameFile acc.1 (b, e) f, acc.2)
      | none => (acc.1, acc.2 ++ [f]))
    ([], [])

/-- `list_file_or_zip(filename, indent, output_lines, root_path)`: a zip file
gets a header line and one indented line per archive entry, a corrupted zip a
single marker line, any other file a plain line.  `zres` stands for the
directory contents `root_path` gives access to. -/
def list_file_or_zip (filename indent : String) (zres : String → ZipRes) : List String :=
  if strEndsWith filename ".zip" then
    match zres filename with
    | .ok entries =>
      (indent ++ filename ++ " [ZIP Contents]:") :: entries.map (fun zn => indent ++ "  " ++ zn)
    | .bad => [indent ++ filename ++ " [Corrupted ZIP]"]
  else [indent ++ filename]

/-- Second loop of `format_image_sequences`: emit a condensed line for each
group with two or more members, divert a singleton group's file back to the
plain files. -/
def routeGroups (gs : List ((String × String) × List String)) (indent : String)
    (others : List String) : List String × List String :=
  gs.foldl
    (fun acc g =>
      if 1 < g.2.length then (acc.1 ++ [condLine indent g.1], acc.2)
      else (acc.1, acc.2 ++ g.2))
    ([], others)

/-- `format_image_sequences(files, indent, output_lines, root_path)`. -/
def format_image_sequences (files : List String) (indent : String)
    (zres : String → ZipRes) : List String :=
  let (gs, others) := buildGroups files
  let (seqLines, others2) := routeGroups gs indent others
  seqLines ++
    ((List.insertionSort (fun a b => strLe a b = true) others2).map
      (fun f => list_file_or_zip f indent zres)).flatten

/-- `list_all_files_func(files, indent, output_lines, root_path)`. -/
def list_all_files_func (files : List String) (indent : String)
    (zres : String → ZipRes) : List String :=
  (files.map (fun f => list_file_or_zip f indent zres)).flatten

/-- `get_output_file(root_directory)`: always the same fixed name. -/
def get_output_file (root : String) : String := joinPath root "file_list.txt"

end FileTreeMakerV5

/-! ### Output writer post-processing (identical in both variants) -/

/-- The per-line adjustment `line[2:] if line.startswith("  ") else line`. -/
def adjustLine (line : String) : String :=
  if strStartsWith line "  " then strDrop line 2 else line

/-- `adjust_indentation_in_file`, acting on the file's line sequence. -/
def adjust_indentation_in_file (lines : List String) : List String :=
  lines.map adjustLine

/-! ### The recursive tree walker (`list_directory_as_tree`)

Both variants share the same skeleton: `sorted(os.listdir(root_path))`,
partition into directories and files (skipping excluded entries), emit each
directory's line followed by its recursed subtree, then render this level's
files according to the mode flag.  Only `FileNotFoundError` is caught; any
other listing failure propagates.
-/

/-- `sorted(os.listdir(...))`: the listing sorted by name. -/
def listingSort (es : List (String × Node)) : List (String × Node) :=
  List.insertionSort (fun a b => strLe a.1 b.1 = true) es

namespace CreateFileTree

/-- The sorted listing with excluded entries removed. -/
def keptEntries (es : List (String × Node)) : List (String × Node) :=
  (listingSort es).filter (fun e => !(skipEntry e.1))

/-- The kept subdirectory entries, in emission order. -/
def dirEntries (es : List (String × Node)) : List (String × Node) :=
  (keptEntries es).filter (fun e => e.2.isDir)

/-- The kept file names, in the order handed to the file renderers. -/
def fileNames (es : List (String × Node)) : List String :=
  ((keptEntries es).filter (fun e => !(e.2.isDir))).map (fun e => e.1)

/-- The mode branch at the end of `list_directory_as_tree`. -/
def renderFiles (la : Bool) (files : List String) (indent : String) : List String :=
  if la then list_all_files_func files indent else format_image_sequences files indent

mutual

/-- `list_directory_as_tree(root_path, indent, output_lines, list_all_files)`
of the first variant, returning the lines this call appends, or the uncaught
exception aborting the run. -/
def list_directory_as_tree (indent : String) (la : Bool) :
    Node → Except PyError (List String)
  | .file _ => .ok []
  | .dir .notFound => .ok []
  | .dir .permission => .error .permissionError
  | .dir (.ok entries) =>
    match walkDirs indent la (dirEntries entries) with
    | .error e => .error e
    | .ok dl => .ok (dl ++ renderFiles la (fileNames entries) indent)
termination_by n => sizeOf n
decreasing_by
  have hfil : ∀ (p : String × Node → Bool) (l : List (String × Node)),
      sizeOf (l.filter p) ≤ sizeOf l := by
    intro p l
    induction l with
    | nil => simp
    | cons a t ih =>
      rw [List.filter_cons]
      cases p a <;> simp [List.cons.sizeOf_spec] <;> omega
  have hsort : sizeOf (listingSort entries) = sizeOf entries :=
    (List.perm_insertionSort _ entries).sizeOf_eq_sizeOf
  have h1 := hfil (fun e => e.2.isDir) (keptEntries entries)
  have h2 := hfil (fun e => !(skipEntry e.1)) (listingSort entries)
  simp only [dirEntries, keptEntries] at h1 h2 ⊢
  simp only [Node.dir.sizeOf_spec, ListResult.ok.sizeOf_spec]
  omega

/-- The `for directory in dirs` loop of the first variant: header line, then
the recursed subtree, for each subdirectory in order. -/
def walkDirs (indent : String) (la : Bool) :
    List (String × Node) → Except PyError (List String)
  | [] => .ok []
  | (nm, c) :: rest =>
    match list_directory_as_tree (indent ++ "  ") la c with
    | .error e => .error e
    | .ok sub =>
      match walkDirs indent la rest with
      | .error e => .error e
      | .ok restL => .ok (((indent ++ nm ++ "/") :: sub) ++ restL)
termination_by es => sizeOf es
decreasing_by
  · simp only [List.cons.sizeOf_spec, Prod.mk.sizeOf_spec]; omega
  · simp only [List.cons.sizeOf_spec]; omega

end

end CreateFileTree

namespace FileTreeMakerV5

/-- The sorted listing with excluded entries removed. -/
def keptEntries (es : List (String × Node)) : List (String × Node) :=
  (listingSort es).filter (fun e => !(skipEntry e.1))

/-- The kept subdirectory entries, in emission order. -/
def dirEntries (es : List (String × Node)) : List (String × Node) :=
  (keptEntries es).filter (fun e => e.2.isDir)

/-- The kept file names, in the order handed to the file renderers. -/
def fileNames (es : List (String × Node)) : List String :=
  ((keptEntries es).filter (fun e => !(e.2.isDir))).map (fun e => e.1)

/-- The mode branch at the end of `list_directory_as_tree`. -/
def renderFiles (la : Bool) (files : List String) (indent : String)
    (zres : String → ZipRes) : List String :=
  if la then list_all_files_func files indent zres
  else format_image_sequences files indent zres

mutual

/-- `list_directory_as_tree(root_path, indent, output_lines, list_all_files)`
of the second variant. -/
def list_directory_as_tree (indent : String) (la : Bool) :
    Node → Except PyError (List String)
  | .file _ => .ok []
  | .dir .notFound => .ok []
  | .dir .permission => .error .permissionError
  | .dir (.ok entries) =>
    match walkDirs indent la (dirEntries entries) with
    | .error e => .error e
    | .ok dl => .ok (dl ++ renderFiles la (fileNames entries) indent (zresOf entries))
termination_by n => sizeOf n
decreasing_by
  have hfil : ∀ (p : String × Node → Bool) (l : List (String × Node)),
      sizeOf (l.filter p) ≤ sizeOf l := by
    intro p l
    induction l with
    | nil => simp
    | cons a t ih =>
      rw [List.filter_cons]
      cases p a <;> simp [List.cons.sizeOf_spec] <;> omega
  have hsort : sizeOf (listingSort entries) = sizeOf entries :=
    (List.perm_insertionSort _ entries).sizeOf_eq_sizeOf
  have h1 := hfil (fun e => e.2.isDir) (keptEntries entries)
  have h2 := hfil (fun e => !(skipEntry e.1)) (listingSort entries)
  simp only [dirEntries, keptEntries] at h1 h2 ⊢
  simp only [Node.dir.sizeOf_spec, ListResult.ok.sizeOf_spec]
  omega

/-- The `for directory in dirs` loop of the second variant. -/
def walkDirs (indent : String) (la : Bool) :
    List (String × Node) → Except PyError (List String)
  | [] => .ok []
  | (nm, c) :: rest =>
    match list_directory_as_tree (indent ++ "  ") la c with
    | .error e => .error e
    | .ok sub =>
      match walkDirs indent la rest with
      | .error e => .error e
      | .ok restL => .ok (((indent ++ nm ++ "/") :: sub) ++ restL)
termination_by es => sizeOf es
decreasing_by
  · simp only [List.cons.sizeOf_spec, Prod.mk.sizeOf_spec]; omega
  · simp only [List.cons.sizeOf_spec]; omega

end

end FileTreeMakerV5

/-! ### Claim-side definitions

These definitions restate parts of the specification's wording, to be
compared against the behaviour of the embedded code, plus a few concrete
inputs used by witnesses and counterexamples.
-/

/-- The specification's classification: the filename ends with *exactly* four
digits, immediately followed by a dot and a (word-character) extension — the
run of digits before the final extension has length exactly 4. -/
def specExactlyFourDigitShape (f : String) : Bool :=
  let r := f.data.reverse
  let ext := r.takeWhile isWordChar
  !ext.isEmpty &&
    match r.drop ext.length with
    | '.' :: p => (p.takeWhile Char.isDigit).length == 4
    | _ => false

/-- A directory whose every file is a corrupted archive. -/
def zresBad : String → ZipRes := fun _ => ZipRes.bad

/-- An `os.path.exists` oracle for a root that already contains
`file_list.txt` and nothing else. -/
def exRoot : String → Bool := fun s => s == "r/file_list.txt"

/-- A directory listing, deliberately in non-alphabetical raw order, with two
subdirectories and one file. -/
def demoEntries : List (String × Node) :=
  [("f.txt", .file .bad), ("Y", .dir (.ok [])), ("X", .dir (.ok []))]

namespace FileTreeMakerV5

/-- The sequence groups the second variant condenses: those with two or more
member files. -/
def bigGroups (gs : List ((String × String) × List String)) :
    List ((String × String) × List String) :=
  gs.filter (fun g => decide (1 < g.2.length))

/-- The member files of singleton groups, diverted back to the per-file
renderer. -/
def smallGroupFiles (gs : List ((String × String) × List String)) : List String :=
  ((gs.filter (fun g => decide (g.2.length ≤ 1))).map (fun g => g.2)).flatten

/-- The files the second variant's condensed mode routes through
`list_file_or_zip`: the non-matching files plus the singleton groups'
members, sorted. -/
def routedFiles (files : List String) : List String :=
  List.insertionSort (fun a b => strLe a b = true)
    (files.filter (fun f => (matchFile f).isNone) ++ smallGroupFiles (buildGroups files).1)

end FileTreeMakerV5

/-! ### General lemmas -/

theorem strAppend_assoc (a b c : String) : (a ++ b) ++ c = a ++ (b ++ c) := by
  apply congrArg String.mk
  show (a.data ++ b.data) ++ c.data = a.data ++ (b.data ++ c.data)
  exact List.append_assoc ..

theorem beq_symm {α} [BEq α] [LawfulBEq α] (a b : α) : (a == b) = (b == a) := by
  cases hab : a == b
  · cases hba : b == a
    · rfl
    · have hba' : b = a := eq_of_beq hba
      subst hba'
      simp at hab
  · have hab' : a = b := eq_of_beq hab
    subst hab'
    simp

/-- A line starts with two spaces exactly when it has at least two leading
spaces. -/
theorem strStartsWith_two_spaces (l : String) :
    strStartsWith l "  " = true ↔ 2 ≤ leadingSpaces l := by
  obtain ⟨d⟩ := l
  show ("  ".data.isPrefixOf d) = true ↔ 2 ≤ (d.takeWhile (fun c => c == ' ')).length
  have hd : "  ".data = [' ', ' '] := rfl
  rw [hd]
  match d with
  | [] => simp [List.isPrefixOf]
  | [c] =>
    cases hc : c == ' ' <;>
      simp [List.isPrefixOf, List.takeWhile, beq_symm ' ' c, hc]
  | a :: b :: t =>
    cases ha : a == ' ' <;> cases hb : b == ' ' <;>
      simp [List.isPrefixOf, List.takeWhile, beq_symm ' ' a, beq_symm ' ' b, ha, hb]

/-! ### Claim C6: the indent-adjustment pass -/

/-- C6: `adjust_indentation_in_file` maps each line to `line[2:]` when it
begins with two spaces and leaves it unchanged otherwise; in particular a
line with fewer than two leading spaces is never altered, so a second
application of the pass cannot corrupt such lines. -/
theorem claim_C6 (ls : List String) (l : String) :
    adjust_indentation_in_file ls = ls.map adjustLine ∧
    (2 ≤ leadingSpaces l → adjustLine l = strDrop l 2) ∧
    (leadingSpaces l < 2 → adjustLine l = l) := by
  refine ⟨rfl, fun h2 => ?_, fun hlt => ?_⟩
  · unfold adjustLine
    rw [if_pos ((strStartsWith_two_spaces l).mpr h2)]
  · unfold adjustLine
    rw [if_neg ?_]
    intro hs
    exact absurd ((strStartsWith_two_spaces l).mp hs) (by omega)

/-- Witness for C6 at concrete lines. -/
theorem claim_C6_witness :
    (2 ≤ leadingSpaces "  a" ∧ adjustLine "  a" = strDrop "  a" 2) ∧
    (leadingSpaces " x" < 2 ∧ adjustLine " x" = " x") :=
  ⟨⟨by decide, (claim_C6 [] "  a").2.1 (by decide)⟩,
   ⟨by decide, (claim_C6 [] " x").2.2 (by decide)⟩⟩

/-! ### Claim C7: corrupted zip reporting -/

/-- C7: in the second variant, a file ending in `.zip` whose contents are not
a valid archive produces exactly one `[Corrupted ZIP]` line and no content
sublines, and processing of the surrounding files continues unaffected. -/
theorem claim_C7 (fn indent : String) (zres : String → ZipRes)
    (hz : strEndsWith fn ".zip" = true) (hb : zres fn = .bad) :
    FileTreeMakerV5.list_file_or_zip fn indent zres = [indent ++ fn ++ " [Corrupted ZIP]"] ∧
    ∀ pre post,
      FileTreeMakerV5.list_all_files_func (pre ++ fn :: post) indent zres =
        FileTreeMakerV5.list_all_files_func pre indent zres ++
          (indent ++ fn ++ " [Corrupted ZIP]") ::
            FileTreeMakerV5.list_all_files_func post indent zres := by
  have h1 : FileTreeMakerV5.list_file_or_zip fn indent zres =
      [indent ++ fn ++ " [Corrupted ZIP]"] := by
    unfold FileTreeMakerV5.list_file_or_zip
    rw [hz, hb]
    rfl
  refine ⟨h1, fun pre post => ?_⟩
  unfold FileTreeMakerV5.list_all_files_func
  rw [List.map_append, List.map_cons, List.flatten_append, List.flatten_cons, h1]
  rfl

/-- Witness for C7: `broken.zip` among intact neighbours. -/
theorem claim_C7_witness :
    strEndsWith "broken.zip" ".zip" = true ∧ zresBad "broken.zip" = .bad ∧
    FileTreeMakerV5.list_file_or_zip "broken.zip" "  " zresBad =
      ["  " ++ "broken.zip" ++ " [Corrupted ZIP]"] ∧
    FileTreeMakerV5.list_all_files_func (["a.txt"] ++ "broken.zip" :: ["z.txt"]) "  " zresBad =
      FileTreeMakerV5.list_all_files_func ["a.txt"] "  " zresBad ++
        ("  " ++ "broken.zip" ++ " [Corrupted ZIP]") ::
          FileTreeMakerV5.list_all_files_func ["z.txt"] "  " zresBad :=
  ⟨by decide, rfl, (claim_C7 "broken.zip" "  " zresBad (by decide) rfl).1,
   (claim_C7 "broken.zip" "  " zresBad (by decide) rfl).2 ["a.txt"] ["z.txt"]⟩

/-! ### Claim C9: unique output filename in the first variant -/

/-- C9: `get_unique_output_file` never returns the name of an existing file:
it returns `<root>/file_list.txt` when that does not exist, and otherwise the
smallest counter `n ≥ 2` whose `<root>/file_list-<n:02d>.txt` does not exist;
in particular a re-run never overwrites an existing `file_list.txt`. -/
theorem claim_C9 (root : String) (ex : String → Bool)
    (h : ∃ n, 2 ≤ n ∧ ex (joinPath root (("file_list-" ++ pad2 n) ++ ".txt")) = false) :
    ex (CreateFileTree.get_unique_output_file root ex h) = false ∧
    (ex (joinPath root "file_list.txt") = false →
      CreateFileTree.get_unique_output_file root ex h = joinPath root "file_list.txt") ∧
    (ex (joinPath root "file_list.txt") = true →
      CreateFileTree.get_unique_output_file root ex h ≠ joinPath root "file_list.txt" ∧
      ∃ n, 2 ≤ n ∧ ex (joinPath root (("file_list-" ++ pad2 n) ++ ".txt")) = false ∧
        CreateFileTree.get_unique_output_file root ex h =
          joinPath root (("file_list-" ++ pad2 n) ++ ".txt") ∧
        ∀ m, 2 ≤ m → ex (joinPath root (("file_list-" ++ pad2 m) ++ ".txt")) = false →
          n ≤ m) := by
  unfold CreateFileTree.get_unique_output_file CreateFileTree.freeCounter
  by_cases hb : ex (joinPath root "file_list.txt") = false
  · rw [if_pos hb]
    exact ⟨hb, fun _ => rfl, fun ht => by simp [hb] at ht⟩
  · rw [if_neg hb]
    have hbt : ex (joinPath root "file_list.txt") = true := by
      cases hx : ex (joinPath root "file_list.txt")
      · exact absurd hx hb
      · rfl
    have hfs := Nat.find_spec h
    refine ⟨hfs.2, fun hf => absurd hf hb, fun _ => ⟨?_, Nat.find h, hfs.1, hfs.2, rfl,
      fun m h2m hm => Nat.find_min' h ⟨h2m, hm⟩⟩⟩
    intro he
    rw [← he, hfs.2] at hbt
    cases hbt

/-- The first variant's search terminates on `exRoot`: counter 2 is free. -/
theorem exRoot_has_free :
    ∃ n, 2 ≤ n ∧ exRoot (joinPath "r" (("file_list-" ++ pad2 n) ++ ".txt")) = false :=
  ⟨2, by decide⟩

/-- Witness for C9: a root already holding `file_list.txt`. -/
theorem claim_C9_witness :
    exRoot (joinPath "r" "file_list.txt") = true ∧
    exRoot (CreateFileTree.get_unique_output_file "r" exRoot exRoot_has_free) = false ∧
    CreateFileTree.get_unique_output_file "r" exRoot exRoot_has_free ≠
      joinPath "r" "file_list.txt" :=
  ⟨by decide, (claim_C9 "r" exRoot exRoot_has_free).1,
   ((claim_C9 "r" exRoot exRoot_has_free).2.2 (by decide)).1⟩

/-! ### Claim C1: the two-frame example directory -/

/-- C1 as stated is false: for `["a.0001.exr", "a.0002.exr"]` the lazy base
group captures `"a."` (dot included), so neither variant's condensed line is
`indent ++ "a[image sequence].exr"`. -/
theorem claim_C1_counterexample :
    CreateFileTree.format_image_sequences ["a.0001.exr", "a.0002.exr"] "" ≠
      ["a[image sequence].exr"] ∧
    FileTreeMakerV5.format_image_sequences ["a.0001.exr", "a.0002.exr"] "" zresBad ≠
      ["a[image sequence].exr"] := by decide

/-- C1 (amended): for a directory whose file list is exactly
`["a.0001.exr", "a.0002.exr"]`, the condensed mode of either variant appends
exactly one line, `indent ++ "a.[image sequence].exr"` (the captured base
keeps its trailing dot), while the list-all mode appends both filenames
individually as `indent ++ filename`. -/
theorem claim_C1 (indent : String) (zres : String → ZipRes) :
    CreateFileTree.format_image_sequences ["a.0001.exr", "a.0002.exr"] indent =
      [indent ++ "a.[image sequence].exr"] ∧
    FileTreeMakerV5.format_image_sequences ["a.0001.exr", "a.0002.exr"] indent zres =
      [indent ++ "a.[image sequence].exr"] ∧
    CreateFileTree.list_all_files_func ["a.0001.exr", "a.0002.exr"] indent =
      [indent ++ "a.0001.exr", indent ++ "a.0002.exr"] ∧
    FileTreeMakerV5.list_all_files_func ["a.0001.exr", "a.0002.exr"] indent zres =
      [indent ++ "a.0001.exr", indent ++ "a.0002.exr"] := by
  have hlit : ("a." : String) ++ ("[image sequence]." ++ "exr") = "a.[image sequence].exr" := by
    decide
  have hb1 : CreateFileTree.buildGroups ["a.0001.exr", "a.0002.exr"] =
      ([(("a.", "exr"), [1, 2])], []) := by decide
  have hb2 : FileTreeMakerV5.buildGroups ["a.0001.exr", "a.0002.exr"] =
      ([(("a.", "exr"), ["a.0001.exr", "a.0002.exr"])], []) := by decide
  refine ⟨?_, ?_, ?_, ?_⟩
  · unfold CreateFileTree.format_image_sequences
    rw [hb1]
    simp [condLine, strAppend_assoc, hlit]
  · unfold FileTreeMakerV5.format_image_sequences
    rw [hb2]
    simp [FileTreeMakerV5.routeGroups, condLine, strAppend_assoc, hlit]
  · rfl
  · simp +decide [FileTreeMakerV5.list_all_files_func, FileTreeMakerV5.list_file_or_zip]

/-! ### Claim C2: which groups are condensed

`routeGroups_eq`, `buildGroups_snd_v2` and `buildGroups_snd_v1` characterise
the two formatters' intermediate state; `claim_C2` then states the contrast
between the variants.
-/
theorem routeGroups_eq (indent : String) (gs : List ((String × String) × List String))
    (others : List String) :
    FileTreeMakerV5.routeGroups gs indent others =
      ((FileTreeMakerV5.bigGroups gs).map (fun g => condLine indent g.1),
       others ++ FileTreeMakerV5.smallGroupFiles gs) := by
  suffices h : ∀ (t : List ((String × String) × List String)) (L O : List String),
      t.foldl (fun acc g => if 1 < g.2.length then (acc.1 ++ [condLine indent g.1], acc.2)
        else (acc.1, acc.2 ++ g.2)) (L, O) =
      (L ++ (FileTreeMakerV5.bigGroups t).map (fun g => condLine indent g.1),
       O ++ FileTreeMakerV5.smallGroupFiles t) by
    simpa [FileTreeMakerV5.routeGroups] using h gs [] others
  intro t
  induction t with
  | nil => intro L O; simp [FileTreeMakerV5.bigGroups, FileTreeMakerV5.smallGroupFiles]
  | cons g t ih =>
    intro L O
    rw [List.foldl_cons]
    by_cases hg : 1 < g.2.length
    · rw [if_pos hg, ih]
      have hb : FileTreeMakerV5.bigGroups (g :: t) = g :: FileTreeMakerV5.bigGroups t := by
        simp [FileTreeMakerV5.bigGroups, List.filter_cons, hg]
      have hgle : ¬ g.2.length ≤ 1 := by omega
      have hs : FileTreeMakerV5.smallGroupFiles (g :: t) =
          FileTreeMakerV5.smallGroupFiles t := by
        simp [FileTreeMakerV5.smallGroupFiles, List.filter_cons, hgle]
      rw [hb, hs]
      simp
    · rw [if_neg hg, ih]
      have hb : FileTreeMakerV5.bigGroups (g :: t) = FileTreeMakerV5.bigGroups t := by
        simp [FileTreeMakerV5.bigGroups, List.filter_cons, hg]
      have hgle : g.2.length ≤ 1 := by omega
      have hs : FileTreeMakerV5.smallGroupFiles (g :: t) =
          g.2 ++ FileTreeMakerV5.smallGroupFiles t := by
        simp [FileTreeMakerV5.smallGroupFiles, List.filter_cons, hgle]
      rw [hb, hs]
      simp

theorem buildGroups_snd_v2 (files : List String) :
    (FileTreeMakerV5.buildGroups files).2 =
      files.filter (fun f => (matchFile f).isNone) := by
  suffices h : ∀ (t : List String) (gs : List ((String × String) × List String))
      (others : List String),
      (t.foldl (fun acc f =>
        match matchFile f with
        | some (b, _, e) => (FileTreeMakerV5.addFrameFile acc.1 (b, e) f, acc.2)
        | none => (acc.1, acc.2 ++ [f])) (gs, others)).2 =
      others ++ t.filter (fun f => (matchFile f).isNone) by
    simpa [FileTreeMakerV5.buildGroups] using h files [] []
  intro t
  induction t with
  | nil => intro gs others; simp
  | cons f t ih =>
    intro gs others
    rw [List.foldl_cons, List.filter_cons]
    cases hm : matchFile f with
    | some g =>
      obtain ⟨b, fr, e⟩ := g
      simp only [hm, Option.isNone_some]
      rw [ih]
      simp
    | none =>
      simp only [hm, Option.isNone_none]
      rw [ih]
      simp

theorem buildGroups_snd_v1 (files : List String) :
    (CreateFileTree.buildGroups files).2 =
      files.filter (fun f => (matchFile f).isNone) := by
  suffices h : ∀ (t : List String) (gs : List ((String × String) × List Nat))
      (others : List String),
      (t.foldl (fun acc f =>
        match matchFile f with
        | some (b, fr, e) => (CreateFileTree.addFrame acc.1 (b, e) (digitsVal fr.data), acc.2)
        | none => (acc.1, acc.2 ++ [f])) (gs, others)).2 =
      others ++ t.filter (fun f => (matchFile f).isNone) by
    simpa [CreateFileTree.buildGroups] using h files [] []
  intro t
  induction t with
  | nil => intro gs others; simp
  | cons f t ih =>
    intro gs others
    rw [List.foldl_cons, List.filter_cons]
    cases hm : matchFile f with
    | some g =>
      obtain ⟨b, fr, e⟩ := g
      simp only [hm, Option.isNone_some]
      rw [ih]
      simp
    | none =>
      simp only [hm, Option.isNone_none]
      rw [ih]
      simp

/-- Splitting the second variant's condensed formatter into condensed lines
for the 2+ groups followed by the per-file rendering of the routed files. -/
theorem fis_v2_split (files : List String) (indent : String) (zres : String → ZipRes) :
    FileTreeMakerV5.format_image_sequences files indent zres =
      (FileTreeMakerV5.bigGroups (FileTreeMakerV5.buildGroups files).1).map
        (fun g => condLine indent g.1) ++
        ((FileTreeMakerV5.routedFiles files).map
          (fun f => FileTreeMakerV5.list_file_or_zip f indent zres)).flatten := by
  unfold FileTreeMakerV5.format_image_sequences FileTreeMakerV5.routedFiles
  rcases hbe : FileTreeMakerV5.buildGroups files with ⟨gs, others⟩
  have hsnd : others = files.filter (fun f => (matchFile f).isNone) := by
    have := buildGroups_snd_v2 files
    rw [hbe] at this
    exact this
  dsimp only
  rw [routeGroups_eq]
  dsimp only
  rw [hsnd]

/-- Splitting the first variant's condensed formatter: a condensed line for
every group, then the non-matching files verbatim. -/
theorem fis_v1_split (files : List String) (indent : String) :
    CreateFileTree.format_image_sequences files indent =
      ((CreateFileTree.buildGroups files).1).map (fun g => condLine indent g.1) ++
        (files.filter (fun f => (matchFile f).isNone)).map (fun f => indent ++ f) := by
  unfold CreateFileTree.format_image_sequences
  rcases hbe : CreateFileTree.buildGroups files with ⟨gs, others⟩
  have hsnd : others = files.filter (fun f => (matchFile f).isNone) := by
    have := buildGroups_snd_v1 files
    rw [hbe] at this
    exact this
  dsimp only
  rw [hsnd]

/-- C2: in condensed mode the second variant emits a condensed line exactly
for the groups with two or more members and routes every remaining file
(non-matching files and singleton groups' members, sorted) through the
per-file renderer `list_file_or_zip`, while the first variant emits a
condensed line for every group, singletons included; the spec's singleton
example `b.0001.exr` comes out as a plain file line. -/
theorem claim_C2 (files : List String) (indent : String) (zres : String → ZipRes) :
    FileTreeMakerV5.format_image_sequences files indent zres =
      (FileTreeMakerV5.bigGroups (FileTreeMakerV5.buildGroups files).1).map
        (fun g => condLine indent g.1) ++
        ((FileTreeMakerV5.routedFiles files).map
          (fun f => FileTreeMakerV5.list_file_or_zip f indent zres)).flatten ∧
    CreateFileTree.format_image_sequences files indent =
      ((CreateFileTree.buildGroups files).1).map (fun g => condLine indent g.1) ++
        (files.filter (fun f => (matchFile f).isNone)).map (fun f => indent ++ f) ∧
    FileTreeMakerV5.format_image_sequences ["b.0001.exr"] indent zres =
      [indent ++ "b.0001.exr"] := by
  refine ⟨fis_v2_split files indent zres, fis_v1_split files indent, ?_⟩
  have hb : FileTreeMakerV5.buildGroups ["b.0001.exr"] =
      ([(("b.", "exr"), ["b.0001.exr"])], []) := by decide
  unfold FileTreeMakerV5.format_image_sequences
  rw [hb]
  simp +decide [FileTreeMakerV5.routeGroups, FileTreeMakerV5.list_file_or_zip,
    List.insertionSort, List.orderedInsert]

/-! ### Claim C10: condensed-group members never reach the archive inspector -/
theorem keys_addFrameFile (gs : List ((String × String) × List String))
    (k : String × String) (f : String) :
    (FileTreeMakerV5.addFrameFile gs k f).map (fun g => g.1) =
      if k ∈ gs.map (fun g => g.1) then gs.map (fun g => g.1)
      else gs.map (fun g => g.1) ++ [k] := by
  induction gs with
  | nil => simp [FileTreeMakerV5.addFrameFile]
  | cons g t ih =>
    obtain ⟨k', v⟩ := g
    by_cases hk : k' = k
    · subst hk
      simp [FileTreeMakerV5.addFrameFile]
    · have hk' : k ≠ k' := fun he => hk he.symm
      by_cases hmem : k ∈ t.map (fun g => g.1) <;>
        simp [FileTreeMakerV5.addFrameFile, hk, hk', hmem, ih]

theorem addFrameFile_mem_pred (P : String → Prop)
    (gs : List ((String × String) × List String)) (k : String × String) (f : String)
    (hgs : ∀ g ∈ gs, ∀ x ∈ g.2, P x) (hf : P f) :
    ∀ g ∈ FileTreeMakerV5.addFrameFile gs k f, ∀ x ∈ g.2, P x := by
  induction gs with
  | nil =>
    intro g hg x hx
    simp [FileTreeMakerV5.addFrameFile] at hg
    subst hg
    simp at hx
    subst hx
    exact hf
  | cons g0 t ih =>
    obtain ⟨k', v⟩ := g0
    intro g hg x hx
    by_cases hk : k' = k
    · subst hk
      simp only [FileTreeMakerV5.addFrameFile, if_pos rfl] at hg
      rcases List.mem_cons.mp hg with hg | hg
      · subst hg
        rcases List.mem_append.mp hx with hx | hx
        · exact hgs (k', v) (List.mem_cons_self _ _) x hx
        · simp at hx
          subst hx
          exact hf
      · exact hgs g (List.mem_cons_of_mem _ hg) x hx
    · simp only [FileTreeMakerV5.addFrameFile, if_neg hk] at hg
      rcases List.mem_cons.mp hg with hg | hg
      · subst hg
        exact hgs (k', v) (List.mem_cons_self _ _) x hx
      · exact ih (fun g' hg' => hgs g' (List.mem_cons_of_mem _ hg')) g hg x hx

/-- The key invariant of the second variant's grouping dictionary: each
stored filename matches the pattern with exactly its group's `(base, ext)`
key, and keys are pairwise distinct. -/
theorem addFrameFile_good (gs : List ((String × String) × List String))
    (k : String × String) (f fr : String)
    (hmem : ∀ g ∈ gs, ∀ x ∈ g.2, ∃ fr', matchFile x = some (g.1.1, fr', g.1.2))
    (hnd : (gs.map (fun g => g.1)).Nodup)
    (hf : matchFile f = some (k.1, fr, k.2)) :
    (∀ g ∈ FileTreeMakerV5.addFrameFile gs k f, ∀ x ∈ g.2,
      ∃ fr', matchFile x = some (g.1.1, fr', g.1.2)) ∧
    ((FileTreeMakerV5.addFrameFile gs k f).map (fun g => g.1)).Nodup := by
  constructor
  · induction gs with
    | nil =>
      intro g hg x hx
      simp [FileTreeMakerV5.addFrameFile] at hg
      subst hg
      simp at hx
      subst hx
      exact ⟨fr, hf⟩
    | cons g0 t ih =>
      obtain ⟨k', v⟩ := g0
      intro g hg x hx
      by_cases hk : k' = k
      · subst hk
        simp only [FileTreeMakerV5.addFrameFile, if_pos rfl] at hg
        rcases List.mem_cons.mp hg with hg | hg
        · subst hg
          rcases List.mem_append.mp hx with hx | hx
          · exact hmem (k', v) (List.mem_cons_self _ _) x hx
          · simp at hx
            subst hx
            exact ⟨fr, hf⟩
        · exact hmem g (List.mem_cons_of_mem _ hg) x hx
      · simp only [FileTreeMakerV5.addFrameFile, if_neg hk] at hg
        rcases List.mem_cons.mp hg with hg | hg
        · subst hg
          exact hmem (k', v) (List.mem_cons_self _ _) x hx
        · exact ih (fun g' hg' => hmem g' (List.mem_cons_of_mem _ hg'))
            (List.Nodup.of_cons hnd) g hg x hx
  · rw [keys_addFrameFile]
    by_cases hmem2 : k ∈ gs.map (fun g => g.1)
    · rw [if_pos hmem2]
      exact hnd
    · rw [if_neg hmem2]
      simp [List.nodup_append, hnd, hmem2]

theorem buildGroups_good_v2 (files : List String) :
    (∀ g ∈ (FileTreeMakerV5.buildGroups files).1, ∀ x ∈ g.2,
      ∃ fr, matchFile x = some (g.1.1, fr, g.1.2)) ∧
    ((FileTreeMakerV5.buildGroups files).1.map (fun g => g.1)).Nodup := by
  suffices h : ∀ (t : List String) (gs : List ((String × String) × List String))
      (others : List String),
      (∀ g ∈ gs, ∀ x ∈ g.2, ∃ fr, matchFile x = some (g.1.1, fr, g.1.2)) →
      (gs.map (fun g => g.1)).Nodup →
      (∀ g ∈ (t.foldl (fun acc f =>
          match matchFile f with
          | some (b, _, e) => (FileTreeMakerV5.addFrameFile acc.1 (b, e) f, acc.2)
          | none => (acc.1, acc.2 ++ [f])) (gs, others)).1, ∀ x ∈ g.2,
        ∃ fr, matchFile x = some (g.1.1, fr, g.1.2)) ∧
      ((t.foldl (fun acc f =>
          match matchFile f with
          | some (b, _, e) => (FileTreeMakerV5.addFrameFile acc.1 (b, e) f, acc.2)
          | none => (acc.1, acc.2 ++ [f])) (gs, others)).1.map (fun g => g.1)).Nodup by
    exact h files [] [] (by simp) (by simp)
  intro t
  induction t with
  | nil => intro gs others hmem hnd; exact ⟨hmem, hnd⟩
  | cons f t ih =>
    intro gs others hmem hnd
    rw [List.foldl_cons]
    cases hm : matchFile f with
    | some g0 =>
      obtain ⟨b, fr, e⟩ := g0
      simp only [hm]
      have hgood := addFrameFile_good gs (b, e) f fr hmem hnd hm
      exact ih _ _ hgood.1 hgood.2
    | none =>
      simp only [hm]
      exact ih _ _ hmem hnd

theorem buildGroups_mem_pred_v2 (P : String → Prop) (files : List String)
    (hfiles : ∀ f ∈ files, P f) :
    ∀ g ∈ (FileTreeMakerV5.buildGroups files).1, ∀ x ∈ g.2, P x := by
  suffices h : ∀ (t : List String) (gs : List ((String × String) × List String))
      (others : List String),
      (∀ g ∈ gs, ∀ x ∈ g.2, P x) → (∀ f ∈ t, P f) →
      ∀ g ∈ (t.foldl (fun acc f =>
          match matchFile f with
          | some (b, _, e) => (FileTreeMakerV5.addFrameFile acc.1 (b, e) f, acc.2)
          | none => (acc.1, acc.2 ++ [f])) (gs, others)).1, ∀ x ∈ g.2, P x by
    exact h files [] [] (by simp) hfiles
  intro t
  induction t with
  | nil => intro gs others hgs _; exact hgs
  | cons f t ih =>
    intro gs others hgs hft
    rw [List.foldl_cons]
    cases hm : matchFile f with
    | some g0 =>
      obtain ⟨b, fr, e⟩ := g0
      simp only [hm]
      exact ih _ _
        (addFrameFile_mem_pred P gs (b, e) f hgs (hft f (List.mem_cons_self _ _)))
        (fun x hx => hft x (List.mem_cons_of_mem _ hx))
    | none =>
      simp only [hm]
      exact ih _ _ hgs (fun x hx => hft x (List.mem_cons_of_mem _ hx))

/-- C10: in the second variant's condensed mode, every member of a condensed
group (2 or more files sharing `(base, ext)` under the frame pattern) is
absent from the routed-files list, and archive inspection
(`list_file_or_zip`) is applied only to routed files — so such a member,
even one named `*.zip`, contributes no line of its own, no archive contents
and no corrupted-archive line. -/
theorem claim_C10 (files : List String) (indent : String) (zres : String → ZipRes)
    (g : (String × String) × List String)
    (hg : g ∈ (FileTreeMakerV5.buildGroups files).1)
    (hlen : 1 < g.2.length) (f : String) (hf : f ∈ g.2) :
    f ∉ FileTreeMakerV5.routedFiles files ∧
    FileTreeMakerV5.format_image_sequences files indent zres =
      (FileTreeMakerV5.bigGroups (FileTreeMakerV5.buildGroups files).1).map
        (fun g' => condLine indent g'.1) ++
        ((FileTreeMakerV5.routedFiles files).map
          (fun x => FileTreeMakerV5.list_file_or_zip x indent zres)).flatten := by
  have hgood := buildGroups_good_v2 files
  obtain ⟨fr, hfr⟩ := hgood.1 g hg f hf
  refine ⟨?_, fis_v2_split files indent zres⟩
  intro hmemr
  unfold FileTreeMakerV5.routedFiles at hmemr
  have hmem2 := (List.Perm.mem_iff (List.perm_insertionSort _ _)).mp hmemr
  rcases List.mem_append.mp hmem2 with hpl | hsm
  · have := List.of_mem_filter hpl
    simp only [hfr, Option.isNone_some] at this
    cases this
  · unfold FileTreeMakerV5.smallGroupFiles at hsm
    rcases List.mem_flatten.mp hsm with ⟨l2, hl2, hfl2⟩
    rcases List.mem_map.mp hl2 with ⟨g', hg', hg'eq⟩
    subst hg'eq
    have hg'mem := List.mem_filter.mp hg'
    have hg'small : g'.2.length ≤ 1 := by
      have := hg'mem.2
      simpa using this
    obtain ⟨fr', hfr'⟩ := hgood.1 g' hg'mem.1 f hfl2
    have h1 : (g.1.1, fr, g.1.2) = (g'.1.1, fr', g'.1.2) := by
      rw [hfr] at hfr'
      exact Option.some.inj hfr'
    have hk1 : g.1.1 = g'.1.1 := congrArg (fun p : String × String × String => p.1) h1
    have hk2 : g.1.2 = g'.1.2 := congrArg (fun p : String × String × String => p.2.2) h1
    have hkeq : g.1 = g'.1 := Prod.ext_iff.mpr ⟨hk1, hk2⟩
    have hgg' : g = g' := List.inj_on_of_nodup_map hgood.2 hg hg'mem.1 hkeq
    rw [← hgg'] at hg'small
    omega

/-- Witness for C10: a two-file zip-named frame sequence. -/
theorem claim_C10_witness :
    ((("b.", "zip"), ["b.0001.zip", "b.0002.zip"]) ∈
      (FileTreeMakerV5.buildGroups ["b.0001.zip", "b.0002.zip"]).1) ∧
    1 < (["b.0001.zip", "b.0002.zip"] : List String).length ∧
    "b.0001.zip" ∉ FileTreeMakerV5.routedFiles ["b.0001.zip", "b.0002.zip"] :=
  ⟨by decide, by decide,
   (claim_C10 ["b.0001.zip", "b.0002.zip"] "" zresBad
     (("b.", "zip"), ["b.0001.zip", "b.0002.zip"])
     (by decide) (by decide) "b.0001.zip" (by decide)).1⟩

/-! ### Claim C3: the frame-sequence classification

The lemmas below characterise the regex match as the existence of a
decomposition `base ++ <4 digits> ++ "." ++ <word extension>` (the base being
arbitrary, in particular free to end in further digits).
-/
theorem wplusEnd_of_word : ∀ {l : List Char}, l ≠ [] → l.all isWordChar = true →
    wplusEnd l = true := by
  intro l
  induction l with
  | nil => intro h _; exact absurd rfl h
  | cons c rest ih =>
    intro _ hall
    rw [List.all_cons, Bool.and_eq_true] at hall
    cases rest with
    | nil => simp [wplusEnd, hall.1]
    | cons d t =>
      have hd : isWordChar d = true := by
        have h2 := hall.2
        rw [List.all_cons, Bool.and_eq_true] at h2
        exact h2.1
      cases t with
      | nil => simp [wplusEnd, hall.1, hd]
      | cons e t' =>
        have hw : wplusEnd (d :: e :: t') = true := ih (by simp) hall.2
        simp [wplusEnd, hall.1, hw]

theorem wplusEnd_no_newline : ∀ {l : List Char}, '\n' ∉ l → wplusEnd l = true →
    l ≠ [] ∧ l.all isWordChar = true := by
  intro l
  induction l with
  | nil => intro _ h; simp [wplusEnd] at h
  | cons c rest ih =>
    intro hn h
    have hnrest : '\n' ∉ rest := fun hm => hn (List.mem_cons_of_mem _ hm)
    cases rest with
    | nil =>
      simp only [wplusEnd] at h
      exact ⟨by simp, by simp [h]⟩
    | cons d t =>
      cases t with
      | nil =>
        simp only [wplusEnd, Bool.and_eq_true] at h
        have hd : isWordChar d = true := by
          rcases Bool.or_eq_true_iff.mp h.2 with h2 | h2
          · exact h2
          · have hde : d = '\n' := eq_of_beq h2
            exact absurd (hde ▸ List.mem_cons_self d []) hnrest
        exact ⟨by simp, by simp [h.1, hd]⟩
      | cons e t' =>
        simp only [wplusEnd, Bool.and_eq_true] at h
        have hrec := ih hnrest h.2
        exact ⟨by simp, by simp [h.1, hrec.2]⟩

theorem exists_four {α} {q : List α} (h : q.length = 4) : ∃ a b c d, q = [a, b, c, d] := by
  rcases q with _ | ⟨a, q⟩
  · simp at h
  rcases q with _ | ⟨b, q⟩
  · simp at h
  rcases q with _ | ⟨c, q⟩
  · simp at h
  rcases q with _ | ⟨d, q⟩
  · simp at h
  rcases q with _ | ⟨e, q⟩
  · exact ⟨a, b, c, d, rfl⟩
  · simp at h

theorem tailGroups_isSome_iff {l : List Char} (hn : '\n' ∉ l) :
    (tailGroups l).isSome = true ↔
      ∃ q e, l = q ++ '.' :: e ∧ q.length = 4 ∧ q.all Char.isDigit = true ∧
        e ≠ [] ∧ e.all isWordChar = true := by
  constructor
  · intro h
    rcases l with _ | ⟨d1, _ | ⟨d2, _ | ⟨d3, _ | ⟨d4, _ | ⟨c, rest⟩⟩⟩⟩⟩
    · simp [tailGroups] at h
    · simp [tailGroups] at h
    · simp [tailGroups] at h
    · simp [tailGroups] at h
    · simp [tailGroups] at h
    · by_cases hc : (d1.isDigit && d2.isDigit && d3.isDigit && d4.isDigit &&
          (c == '.') && wplusEnd rest) = true
      · simp only [Bool.and_eq_true] at hc
        obtain ⟨⟨⟨⟨⟨hd1, hd2⟩, hd3⟩, hd4⟩, hdot⟩, h6⟩ := hc
        have hceq : c = '.' := eq_of_beq hdot
        have hnrest : '\n' ∉ rest := by
          intro hm
          exact hn (by simp [hm])
        have hw := wplusEnd_no_newline hnrest h6
        exact ⟨[d1, d2, d3, d4], rest, by rw [hceq]; rfl, rfl,
          by simp [hd1, hd2, hd3, hd4], hw.1, hw.2⟩
      · simp [tailGroups, hc] at h
  · rintro ⟨q, e, heq, hq4, hqd, hene, hew⟩
    obtain ⟨a, b, c0, d0, hq⟩ := exists_four hq4
    subst hq
    subst heq
    simp only [List.all_cons, List.all_nil, Bool.and_eq_true] at hqd
    simp [tailGroups, hqd.1, hqd.2.1, hqd.2.2.1, hqd.2.2.2.1,
      wplusEnd_of_word hene hew]

theorem findSeq_isSome_iff : ∀ {l : List Char}, '\n' ∉ l →
    ((findSeq l).isSome = true ↔
      ∃ p q e, l = p ++ q ++ '.' :: e ∧ q.length = 4 ∧ q.all Char.isDigit = true ∧
        e ≠ [] ∧ e.all isWordChar = true) := by
  intro l
  induction l with
  | nil =>
    intro _
    simp only [findSeq, Option.isSome_none, Bool.false_eq_true, false_iff]
    rintro ⟨p, q, e, heq, hq4, hqd, hene, hew⟩
    simp at heq
  | cons c rest ih =>
    intro hn
    have hnc : (c == '\n') = false := by
      have hne : c ≠ '\n' := fun he => hn (he ▸ List.mem_cons_self _ _)
      simpa using hne
    have hnrest : '\n' ∉ rest := fun hm => hn (List.mem_cons_of_mem _ hm)
    cases htg : tailGroups (c :: rest) with
    | some g =>
      constructor
      · intro _
        have hts : (tailGroups (c :: rest)).isSome = true := by simp [htg]
        obtain ⟨q, e, heq, hq4, hqd, hene, hew⟩ := (tailGroups_isSome_iff hn).mp hts
        exact ⟨[], q, e, by simpa using heq, hq4, hqd, hene, hew⟩
      · intro _
        obtain ⟨fr, ex⟩ := g
        simp [findSeq, htg]
    | none =>
      have hred : (findSeq (c :: rest)).isSome = (findSeq rest).isSome := by
        simp [findSeq, htg, hnc]
      rw [hred, ih hnrest]
      constructor
      · rintro ⟨p, q, e, heq, hq4, hqd, hene, hew⟩
        exact ⟨c :: p, q, e, by simp [heq], hq4, hqd, hene, hew⟩
      · rintro ⟨p, q, e, heq, hq4, hqd, hene, hew⟩
        cases p with
        | nil =>
          have hts : (tailGroups (c :: rest)).isSome = true :=
            (tailGroups_isSome_iff hn).mpr ⟨q, e, by simpa using heq, hq4, hqd, hene, hew⟩
          rw [htg] at hts
          simp at hts
        | cons p0 p' =>
          simp only [List.cons_append, List.cons.injEq] at heq
          exact ⟨p', q, e, heq.2, hq4, hqd, hene, hew⟩

/-- C3 as stated is false: `a00001.exr` has a five-digit run before the
extension, yet the code classifies it as a frame-sequence member (the match
takes the last four digits and leaves `a0` as base). -/
theorem claim_C3_counterexample :
    (matchFile "a00001.exr").isSome = true ∧
    specExactlyFourDigitShape "a00001.exr" = false := by decide

/-- C3 (amended): for every newline-free filename, the classifier accepts it
exactly when it decomposes as `<base><4-digit-number>.<ext>` with a nonempty
word-character extension — the base is arbitrary and may itself end in
digits, so a run of more than 4 digits before the extension still matches;
only runs shorter than 4 digits are routed to the plain path. -/
theorem claim_C3 (f : String) (hn : '\n' ∉ f.data) :
    (matchFile f).isSome = true ↔
      ∃ p q e, f.data = p ++ q ++ '.' :: e ∧ q.length = 4 ∧ q.all Char.isDigit = true ∧
        e ≠ [] ∧ e.all isWordChar = true := by
  have hiso : (matchFile f).isSome = (findSeq f.data).isSome := by
    unfold matchFile
    cases findSeq f.data <;> rfl
  rw [hiso]
  exact findSeq_isSome_iff hn

/-- Witness for C3 at a concrete filename. -/
theorem claim_C3_witness :
    ('\n' ∉ "shot0001.exr".data) ∧
    ((matchFile "shot0001.exr").isSome = true ↔
      ∃ p q e, "shot0001.exr".data = p ++ q ++ '.' :: e ∧ q.length = 4 ∧
        q.all Char.isDigit = true ∧ e ≠ [] ∧ e.all isWordChar = true) :=
  ⟨by decide, claim_C3 "shot0001.exr" (by decide)⟩

/-! ### Claim C8: failure at the point of listing -/
theorem walk_ok_nil_v1 (indent : String) (la : Bool) :
    CreateFileTree.list_directory_as_tree indent la (.dir (.ok [])) = .ok [] := by
  cases la <;>
    simp [CreateFileTree.list_directory_as_tree, CreateFileTree.walkDirs,
      CreateFileTree.dirEntries, CreateFileTree.keptEntries, CreateFileTree.fileNames,
      listingSort, CreateFileTree.renderFiles, CreateFileTree.list_all_files_func,
      CreateFileTree.format_image_sequences, CreateFileTree.buildGroups]

theorem walk_ok_nil_v2 (indent : String) (la : Bool) :
    FileTreeMakerV5.list_directory_as_tree indent la (.dir (.ok [])) = .ok [] := by
  cases la <;>
    simp [FileTreeMakerV5.list_directory_as_tree, FileTreeMakerV5.walkDirs,
      FileTreeMakerV5.dirEntries, FileTreeMakerV5.keptEntries, FileTreeMakerV5.fileNames,
      listingSort, FileTreeMakerV5.renderFiles, FileTreeMakerV5.list_all_files_func,
      FileTreeMakerV5.format_image_sequences, FileTreeMakerV5.buildGroups,
      FileTreeMakerV5.routeGroups, List.insertionSort]

theorem walkDirs_notFound_mid_v1 (indent : String) (la : Bool) (nm : String) :
    ∀ pre post, CreateFileTree.walkDirs indent la (pre ++ (nm, .dir .notFound) :: post) =
      CreateFileTree.walkDirs indent la (pre ++ (nm, .dir (.ok [])) :: post) := by
  intro pre post
  induction pre with
  | nil =>
    simp only [List.nil_append]
    rw [CreateFileTree.walkDirs, CreateFileTree.walkDirs]
    rw [walk_ok_nil_v1]
    simp [CreateFileTree.list_directory_as_tree]
  | cons a t ih =>
    obtain ⟨anm, ac⟩ := a
    simp only [List.cons_append]
    rw [CreateFileTree.walkDirs, CreateFileTree.walkDirs, ih]

theorem walkDirs_notFound_mid_v2 (indent : String) (la : Bool) (nm : String) :
    ∀ pre post, FileTreeMakerV5.walkDirs indent la (pre ++ (nm, .dir .notFound) :: post) =
      FileTreeMakerV5.walkDirs indent la (pre ++ (nm, .dir (.ok [])) :: post) := by
  intro pre post
  induction pre with
  | nil =>
    simp only [List.nil_append]
    rw [FileTreeMakerV5.walkDirs, FileTreeMakerV5.walkDirs]
    rw [walk_ok_nil_v2]
    simp [FileTreeMakerV5.list_directory_as_tree]
  | cons a t ih =>
    obtain ⟨anm, ac⟩ := a
    simp only [List.cons_append]
    rw [FileTreeMakerV5.walkDirs, FileTreeMakerV5.walkDirs, ih]

/-- C8 as stated is false: only `FileNotFoundError` is caught.  A listing
that fails with a `PermissionError` propagates out of
`list_directory_as_tree` — the call raises instead of returning, and a
pending sibling (`"s"`) is never traversed. -/
theorem claim_C8_counterexample :
    CreateFileTree.list_directory_as_tree "  " false (.dir .permission) =
      .error .permissionError ∧
    CreateFileTree.walkDirs "" false [("p", .dir .permission), ("s", .dir (.ok []))] =
      .error .permissionError := by
  constructor
  · simp [CreateFileTree.list_directory_as_tree]
  · rw [CreateFileTree.walkDirs]
    simp [CreateFileTree.list_directory_as_tree]

/-- C8 (amended): a listing failing with `FileNotFoundError` (vanished path)
is caught at the point of listing and the walk returns without raising, that
subtree contributing no lines, with sibling branches unaffected (the walk
behaves as if the directory were empty); a listing failing with a
`PermissionError` however is not caught and aborts the traversal, in both
variants. -/
theorem claim_C8 (indent : String) (la : Bool) :
    CreateFileTree.list_directory_as_tree indent la (.dir .notFound) = .ok [] ∧
    FileTreeMakerV5.list_directory_as_tree indent la (.dir .notFound) = .ok [] ∧
    CreateFileTree.list_directory_as_tree indent la (.dir .permission) =
      .error .permissionError ∧
    FileTreeMakerV5.list_directory_as_tree indent la (.dir .permission) =
      .error .permissionError ∧
    (∀ pre post nm,
      CreateFileTree.walkDirs indent la (pre ++ (nm, .dir .notFound) :: post) =
        CreateFileTree.walkDirs indent la (pre ++ (nm, .dir (.ok [])) :: post)) ∧
    (∀ pre post nm,
      FileTreeMakerV5.walkDirs indent la (pre ++ (nm, .dir .notFound) :: post) =
        FileTreeMakerV5.walkDirs indent la (pre ++ (nm, .dir (.ok [])) :: post)) :=
  ⟨by simp [CreateFileTree.list_directory_as_tree],
   by simp [FileTreeMakerV5.list_directory_as_tree],
   by simp [CreateFileTree.list_directory_as_tree],
   by simp [FileTreeMakerV5.list_directory_as_tree],
   fun pre post nm => walkDirs_notFound_mid_v1 indent la nm pre post,
   fun pre post nm => walkDirs_notFound_mid_v2 indent la nm pre post⟩

/-! ### Claim C4: directories before files at every level -/
/-- C4: whenever a level of `list_directory_as_tree` succeeds — for any raw
listing order — its output is exactly the subdirectory block (each kept
subdirectory's header line followed by its recursed subtree, in sorted
order) followed by the file lines of that level; every subdirectory line
therefore precedes every file line of the same level.  Holds for both
variants. -/
theorem claim_C4 (indent : String) (la : Bool) (es : List (String × Node)) (L : List String) :
    (CreateFileTree.list_directory_as_tree indent la (.dir (.ok es)) = .ok L →
      ∃ dl, CreateFileTree.walkDirs indent la (CreateFileTree.dirEntries es) = .ok dl ∧
        L = dl ++ CreateFileTree.renderFiles la (CreateFileTree.fileNames es) indent) ∧
    (FileTreeMakerV5.list_directory_as_tree indent la (.dir (.ok es)) = .ok L →
      ∃ dl, FileTreeMakerV5.walkDirs indent la (FileTreeMakerV5.dirEntries es) = .ok dl ∧
        L = dl ++ FileTreeMakerV5.renderFiles la (FileTreeMakerV5.fileNames es) indent
          (zresOf es)) := by
  constructor
  · intro h
    rw [CreateFileTree.list_directory_as_tree] at h
    cases hw : CreateFileTree.walkDirs indent la (CreateFileTree.dirEntries es) with
    | error e =>
      rw [hw] at h
      simp at h
    | ok dl =>
      rw [hw] at h
      simp only [Except.ok.injEq] at h
      exact ⟨dl, rfl, h.symm⟩
  · intro h
    rw [FileTreeMakerV5.list_directory_as_tree] at h
    cases hw : FileTreeMakerV5.walkDirs indent la (FileTreeMakerV5.dirEntries es) with
    | error e =>
      rw [hw] at h
      simp at h
    | ok dl =>
      rw [hw] at h
      simp only [Except.ok.injEq] at h
      exact ⟨dl, rfl, h.symm⟩

/-- Witness for C4: a raw listing in non-alphabetical order with the file
first still yields the two subdirectory lines before the file line. -/
theorem claim_C4_witness :
    (∃ dl, CreateFileTree.walkDirs "" false (CreateFileTree.dirEntries demoEntries) = .ok dl ∧
      ["X/", "Y/", "f.txt"] = dl ++
        CreateFileTree.renderFiles false (CreateFileTree.fileNames demoEntries) "") ∧
    (∃ dl, FileTreeMakerV5.walkDirs "" false (FileTreeMakerV5.dirEntries demoEntries) = .ok dl ∧
      ["X/", "Y/", "f.txt"] = dl ++
        FileTreeMakerV5.renderFiles false (FileTreeMakerV5.fileNames demoEntries) ""
          (zresOf demoEntries)) :=
  ⟨(claim_C4 "" false demoEntries ["X/", "Y/", "f.txt"]).1 (by
      simp +decide [demoEntries, CreateFileTree.list_directory_as_tree,
        CreateFileTree.walkDirs, CreateFileTree.dirEntries, CreateFileTree.keptEntries,
        CreateFileTree.fileNames, CreateFileTree.renderFiles,
        CreateFileTree.format_image_sequences, CreateFileTree.buildGroups, listingSort,
        List.insertionSort, List.orderedInsert, CreateFileTree.skipEntry, strLe, lexLe,
        strStartsWith, matchFile, findSeq, tailGroups]),
   (claim_C4 "" false demoEntries ["X/", "Y/", "f.txt"]).2 (by
      simp +decide [demoEntries, FileTreeMakerV5.list_directory_as_tree,
        FileTreeMakerV5.walkDirs, FileTreeMakerV5.dirEntries, FileTreeMakerV5.keptEntries,
        FileTreeMakerV5.fileNames, FileTreeMakerV5.renderFiles,
        FileTreeMakerV5.format_image_sequences, FileTreeMakerV5.buildGroups,
        FileTreeMakerV5.routeGroups, FileTreeMakerV5.list_file_or_zip, zresOf, listingSort,
        List.insertionSort, List.orderedInsert, FileTreeMakerV5.skipEntry, strLe, lexLe,
        strStartsWith, strEndsWith, matchFile, findSeq, tailGroups])⟩

/-! ### Claim C5: excluded entries

A stable insertion sort commutes with filtering (`filter_insertionSort_middle`
via the `orderedInsert` lemmas), so removing an excluded entry anywhere in the
raw listing leaves a level's entire output unchanged — the entry is genuinely
excluded from traversal.
-/
theorem lexLe_total : ∀ l1 l2 : List Char, lexLe l1 l2 = true ∨ lexLe l2 l1 = true := by
  intro l1
  induction l1 with
  | nil => intro l2; left; rfl
  | cons a t ih =>
    intro l2
    cases l2 with
    | nil => right; rfl
    | cons b u =>
      rcases lt_trichotomy a b with h | h | h
      · left
        simp [lexLe, h]
      · subst h
        rcases ih u with h2 | h2
        · left
          simp [lexLe, lt_irrefl, h2]
        · right
          simp [lexLe, lt_irrefl, h2]
      · right
        simp [lexLe, h]

theorem lexLe_trans : ∀ l1 l2 l3 : List Char,
    lexLe l1 l2 = true → lexLe l2 l3 = true → lexLe l1 l3 = true := by
  intro l1
  induction l1 with
  | nil => intro l2 l3 _ _; rfl
  | cons a t ih =>
    intro l2 l3 h12 h23
    cases l2 with
    | nil => simp [lexLe] at h12
    | cons b u =>
      cases l3 with
      | nil => simp [lexLe] at h23
      | cons c v =>
        by_cases hab : a < b
        · by_cases hbc : b < c
          · simp [lexLe, lt_trans hab hbc]
          · by_cases hcb : c < b
            · simp [lexLe, hbc, hcb] at h23
            · have hbceq : b = c := le_antisymm (not_lt.mp hcb) (not_lt.mp hbc)
              subst hbceq
              simp [lexLe, hab]
        · by_cases hba : b < a
          · simp [lexLe, hab, hba] at h12
          · have habeq : a = b := le_antisymm (not_lt.mp hba) (not_lt.mp hab)
            subst habeq
            simp only [lexLe, lt_irrefl, if_false] at h12
            by_cases hac : a < c
            · simp [lexLe, hac]
            · by_cases hca : c < a
              · simp [lexLe, hac, hca] at h23
              · have haceq : a = c := le_antisymm (not_lt.mp hca) (not_lt.mp hac)
                subst haceq
                simp only [lexLe, lt_irrefl, if_false] at h23 ⊢
                exact ih u v h12 h23

theorem orderedInsert_of_forall {α} (r : α → α → Prop) [DecidableRel r] (a : α)
    (L : List α) (h : ∀ b ∈ L, r a b) : List.orderedInsert r a L = a :: L := by
  cases L with
  | nil => rfl
  | cons b l => simp [List.orderedInsert, h b (List.mem_cons_self _ _)]

theorem filter_orderedInsert_neg {α} (r : α → α → Prop) [DecidableRel r] (p : α → Bool)
    (a : α) (hp : p a = false) :
    ∀ L : List α, (List.orderedInsert r a L).filter p = L.filter p := by
  intro L
  induction L with
  | nil => simp [List.orderedInsert, hp]
  | cons b l ih =>
    rw [List.orderedInsert]
    by_cases h : r a b
    · rw [if_pos h, List.filter_cons, hp]
      simp
    · rw [if_neg h, List.filter_cons, List.filter_cons]
      cases p b <;> simp [ih]

theorem filter_orderedInsert_pos {α} (r : α → α → Prop) [DecidableRel r] [IsTrans α r]
    (p : α → Bool) (a : α) (hp : p a = true) :
    ∀ L : List α, L.Sorted r → (List.orderedInsert r a L).filter p =
      List.orderedInsert r a (L.filter p) := by
  intro L
  induction L with
  | nil => simp [List.orderedInsert, hp]
  | cons b l ih =>
    intro hs
    rw [List.sorted_cons] at hs
    rw [List.orderedInsert]
    by_cases hr : r a b
    · rw [if_pos hr]
      cases hpb : p b
      · have hall : ∀ c ∈ l.filter p, r a c := by
          intro c hc
          exact Trans.trans hr (hs.1 c (List.mem_of_mem_filter hc))
        simp [List.filter_cons, hp, hpb, orderedInsert_of_forall r a _ hall]
      · simp [List.filter_cons, hp, hpb, List.orderedInsert, hr]
    · rw [if_neg hr]
      cases hpb : p b
      · simp [List.filter_cons, hpb, ih hs.2]
      · simp [List.filter_cons, hpb, ih hs.2, List.orderedInsert, hr]

theorem filter_insertionSort_middle {α} (r : α → α → Prop) [DecidableRel r] [IsTotal α r]
    [IsTrans α r] (p : α → Bool) (x : α) (hp : p x = false) :
    ∀ es1 es2 : List α, (List.insertionSort r (es1 ++ x :: es2)).filter p =
      (List.insertionSort r (es1 ++ es2)).filter p := by
  intro es1
  induction es1 with
  | nil =>
    intro es2
    simp only [List.nil_append, List.insertionSort]
    exact filter_orderedInsert_neg r p x hp _
  | cons a t ih =>
    intro es2
    simp only [List.cons_append, List.insertionSort]
    cases hpa : p a
    · rw [filter_orderedInsert_neg r p a hpa, filter_orderedInsert_neg r p a hpa]
      simp only [List.append_eq]
      rw [ih]
    · rw [filter_orderedInsert_pos r p a hpa _ (List.sorted_insertionSort r _),
        filter_orderedInsert_pos r p a hpa _ (List.sorted_insertionSort r _)]
      simp only [List.append_eq]
      rw [ih]

theorem keptEntries_middle_v1 (es1 es2 : List (String × Node)) (x : String × Node)
    (hx : CreateFileTree.skipEntry x.1 = true) :
    CreateFileTree.keptEntries (es1 ++ x :: es2) = CreateFileTree.keptEntries (es1 ++ es2) := by
  unfold CreateFileTree.keptEntries listingSort
  haveI : IsTotal (String × Node) (fun a b => strLe a.1 b.1 = true) :=
    ⟨fun a b => lexLe_total a.1.data b.1.data⟩
  haveI : IsTrans (String × Node) (fun a b => strLe a.1 b.1 = true) :=
    ⟨fun a b c hab hbc => lexLe_trans a.1.data b.1.data c.1.data hab hbc⟩
  exact filter_insertionSort_middle _ _ x (by simp [hx]) es1 es2

theorem keptEntries_middle_v2 (es1 es2 : List (String × Node)) (x : String × Node)
    (hx : FileTreeMakerV5.skipEntry x.1 = true) :
    FileTreeMakerV5.keptEntries (es1 ++ x :: es2) = FileTreeMakerV5.keptEntries (es1 ++ es2) := by
  unfold FileTreeMakerV5.keptEntries listingSort
  haveI : IsTotal (String × Node) (fun a b => strLe a.1 b.1 = true) :=
    ⟨fun a b => lexLe_total a.1.data b.1.data⟩
  haveI : IsTrans (String × Node) (fun a b => strLe a.1 b.1 = true) :=
    ⟨fun a b c hab hbc => lexLe_trans a.1.data b.1.data c.1.data hab hbc⟩
  exact filter_insertionSort_middle _ _ x (by simp [hx]) es1 es2

theorem find?_middle {α} (p : α → Bool) (x : α) (hx : p x = false) :
    ∀ l1 l2 : List α, List.find? p (l1 ++ x :: l2) = List.find? p (l1 ++ l2) := by
  intro l1 l2
  induction l1 with
  | nil => simp [List.find?, hx]
  | cons a t ih =>
    simp only [List.cons_append, List.find?]
    cases hpa : p a <;> simp [hpa, ih]

theorem zresOf_middle (es1 es2 : List (String × Node)) (nm : String) (c : Node)
    (f : String) (hf : f ≠ nm) :
    zresOf (es1 ++ (nm, c) :: es2) f = zresOf (es1 ++ es2) f := by
  unfold zresOf
  have hpx : (((nm, c) : String × Node).1 == f) = false := by
    cases hb : nm == f
    · rfl
    · exact absurd (eq_of_beq hb) (Ne.symm hf)
  rw [find?_middle (fun (e : String × Node) => e.1 == f) ((nm, c) : String × Node) hpx es1 es2]

theorem list_file_or_zip_congr (f i : String) (z1 z2 : String → ZipRes)
    (h : z1 f = z2 f) :
    FileTreeMakerV5.list_file_or_zip f i z1 = FileTreeMakerV5.list_file_or_zip f i z2 := by
  unfold FileTreeMakerV5.list_file_or_zip
  rw [h]

theorem routedFiles_subset (files : List String) :
    ∀ f ∈ FileTreeMakerV5.routedFiles files, f ∈ files := by
  intro f hf
  unfold FileTreeMakerV5.routedFiles at hf
  have hf2 := (List.Perm.mem_iff (List.perm_insertionSort _ _)).mp hf
  rcases List.mem_append.mp hf2 with h | h
  · exact List.mem_of_mem_filter h
  · unfold FileTreeMakerV5.smallGroupFiles at h
    rcases List.mem_flatten.mp h with ⟨l2, hl2, hfl2⟩
    rcases List.mem_map.mp hl2 with ⟨g, hgmem, hgeq⟩
    subst hgeq
    exact buildGroups_mem_pred_v2 (· ∈ files) files (fun _ hm => hm) g
      (List.mem_filter.mp hgmem).1 f hfl2

theorem fis_congr (files : List String) (i : String) (z1 z2 : String → ZipRes)
    (h : ∀ f ∈ files, z1 f = z2 f) :
    FileTreeMakerV5.format_image_sequences files i z1 =
      FileTreeMakerV5.format_image_sequences files i z2 := by
  rw [fis_v2_split, fis_v2_split]
  congr 1
  congr 1
  apply List.map_congr_left
  intro f hf
  exact list_file_or_zip_congr f i z1 z2 (h f (routedFiles_subset files f hf))

theorem laf_congr (files : List String) (i : String) (z1 z2 : String → ZipRes)
    (h : ∀ f ∈ files, z1 f = z2 f) :
    FileTreeMakerV5.list_all_files_func files i z1 =
      FileTreeMakerV5.list_all_files_func files i z2 := by
  unfold FileTreeMakerV5.list_all_files_func
  congr 1
  apply List.map_congr_left
  intro f hf
  exact list_file_or_zip_congr f i z1 z2 (h f hf)

theorem renderFiles_congr (la : Bool) (files : List String) (i : String)
    (z1 z2 : String → ZipRes) (h : ∀ f ∈ files, z1 f = z2 f) :
    FileTreeMakerV5.renderFiles la files i z1 = FileTreeMakerV5.renderFiles la files i z2 := by
  unfold FileTreeMakerV5.renderFiles
  cases la
  · simp only [if_false, Bool.false_eq_true]
    exact fis_congr files i z1 z2 h
  · simp only [if_true]
    exact laf_congr files i z1 z2 h

theorem fileNames_not_skipped_v2 (es : List (String × Node)) :
    ∀ f ∈ FileTreeMakerV5.fileNames es, FileTreeMakerV5.skipEntry f = false := by
  intro f hf
  unfold FileTreeMakerV5.fileNames at hf
  rcases List.mem_map.mp hf with ⟨e, he, heq⟩
  subst heq
  have he2 := List.mem_filter.mp he
  have he3 := List.mem_filter.mp he2.1
  simpa using he3.2

theorem walk_middle_v1 (indent : String) (la : Bool) (es1 es2 : List (String × Node))
    (nm : String) (c : Node) (hx : CreateFileTree.skipEntry nm = true) :
    CreateFileTree.list_directory_as_tree indent la (.dir (.ok (es1 ++ (nm, c) :: es2))) =
      CreateFileTree.list_directory_as_tree indent la (.dir (.ok (es1 ++ es2))) := by
  have hkept := keptEntries_middle_v1 es1 es2 (nm, c) hx
  have hdirs : CreateFileTree.dirEntries (es1 ++ (nm, c) :: es2) =
      CreateFileTree.dirEntries (es1 ++ es2) := by
    unfold CreateFileTree.dirEntries
    rw [hkept]
  have hfn : CreateFileTree.fileNames (es1 ++ (nm, c) :: es2) =
      CreateFileTree.fileNames (es1 ++ es2) := by
    unfold CreateFileTree.fileNames
    rw [hkept]
  rw [CreateFileTree.list_directory_as_tree, CreateFileTree.list_directory_as_tree,
    hdirs, hfn]

theorem walk_middle_v2 (indent : String) (la : Bool) (es1 es2 : List (String × Node))
    (nm : String) (c : Node) (hx : FileTreeMakerV5.skipEntry nm = true) :
    FileTreeMakerV5.list_directory_as_tree indent la (.dir (.ok (es1 ++ (nm, c) :: es2))) =
      FileTreeMakerV5.list_directory_as_tree indent la (.dir (.ok (es1 ++ es2))) := by
  have hkept := keptEntries_middle_v2 es1 es2 (nm, c) hx
  have hdirs : FileTreeMakerV5.dirEntries (es1 ++ (nm, c) :: es2) =
      FileTreeMakerV5.dirEntries (es1 ++ es2) := by
    unfold FileTreeMakerV5.dirEntries
    rw [hkept]
  have hfn : FileTreeMakerV5.fileNames (es1 ++ (nm, c) :: es2) =
      FileTreeMakerV5.fileNames (es1 ++ es2) := by
    unfold FileTreeMakerV5.fileNames
    rw [hkept]
  have hzr : ∀ f ∈ FileTreeMakerV5.fileNames (es1 ++ es2),
      zresOf (es1 ++ (nm, c) :: es2) f = zresOf (es1 ++ es2) f := by
    intro f hf
    have hns := fileNames_not_skipped_v2 _ f hf
    have hne : f ≠ nm := by
      intro he
      rw [he, hx] at hns
      cases hns
    exact zresOf_middle es1 es2 nm c f hne
  rw [FileTreeMakerV5.list_directory_as_tree, FileTreeMakerV5.list_directory_as_tree,
    hdirs, hfn]
  cases hw : FileTreeMakerV5.walkDirs indent la (FileTreeMakerV5.dirEntries (es1 ++ es2)) with
  | error e => rfl
  | ok dl =>
    simp only
    rw [renderFiles_congr la _ indent _ _ hzr]

/-- C5 as stated is false for the first variant: it skips only
`file_list.txt` (plus dot-entries and `.DS_Store`), not `file_list.pdf`, so a
file named `file_list.pdf` produces an output line in the first variant while
the second variant excludes it. -/
theorem claim_C5_counterexample :
    CreateFileTree.list_directory_as_tree "" false
      (.dir (.ok [("file_list.pdf", .file .bad)])) = .ok ["file_list.pdf"] ∧
    FileTreeMakerV5.list_directory_as_tree "" false
      (.dir (.ok [("file_list.pdf", .file .bad)])) = .ok [] := by
  constructor
  · simp +decide [CreateFileTree.list_directory_as_tree, CreateFileTree.walkDirs,
      CreateFileTree.dirEntries, CreateFileTree.keptEntries, CreateFileTree.fileNames,
      CreateFileTree.renderFiles, CreateFileTree.format_image_sequences,
      CreateFileTree.buildGroups, listingSort, List.insertionSort, List.orderedInsert,
      CreateFileTree.skipEntry, strLe, lexLe, strStartsWith, matchFile, findSeq, tailGroups]
  · simp +decide [FileTreeMakerV5.list_directory_as_tree, FileTreeMakerV5.walkDirs,
      FileTreeMakerV5.dirEntries, FileTreeMakerV5.keptEntries, FileTreeMakerV5.fileNames,
      FileTreeMakerV5.renderFiles, FileTreeMakerV5.format_image_sequences,
      FileTreeMakerV5.buildGroups, FileTreeMakerV5.routeGroups, listingSort,
      List.insertionSort, List.orderedInsert, FileTreeMakerV5.skipEntry, strLe, lexLe,
      strStartsWith, matchFile, findSeq, tailGroups]

/-- C5 (amended): at every directory level of either variant, an entry whose
name the variant's skip test accepts is excluded from traversal — inserting
or removing such an entry anywhere in the raw listing leaves the call's
output unchanged.  Names starting with `"."` (hence `.git`, `.DS_Store`) and
`file_list.txt` are excluded in both variants; `file_list.pdf` is excluded
only in the second variant and is listed by the first. -/
theorem claim_C5 (indent : String) (la : Bool) (es1 es2 : List (String × Node))
    (nm : String) (c : Node) :
    (CreateFileTree.skipEntry nm = true →
      CreateFileTree.list_directory_as_tree indent la (.dir (.ok (es1 ++ (nm, c) :: es2))) =
        CreateFileTree.list_directory_as_tree indent la (.dir (.ok (es1 ++ es2)))) ∧
    (FileTreeMakerV5.skipEntry nm = true →
      FileTreeMakerV5.list_directory_as_tree indent la (.dir (.ok (es1 ++ (nm, c) :: es2))) =
        FileTreeMakerV5.list_directory_as_tree indent la (.dir (.ok (es1 ++ es2)))) ∧
    CreateFileTree.skipEntry ".git" = true ∧
    CreateFileTree.skipEntry ".DS_Store" = true ∧
    CreateFileTree.skipEntry "file_list.txt" = true ∧
    CreateFileTree.skipEntry "file_list.pdf" = false ∧
    FileTreeMakerV5.skipEntry ".git" = true ∧
    FileTreeMakerV5.skipEntry ".DS_Store" = true ∧
    FileTreeMakerV5.skipEntry "file_list.txt" = true ∧
    FileTreeMakerV5.skipEntry "file_list.pdf" = true :=
  ⟨fun hx => walk_middle_v1 indent la es1 es2 nm c hx,
   fun hx => walk_middle_v2 indent la es1 es2 nm c hx,
   by decide, by decide, by decide, by decide, by decide, by decide, by decide, by decide⟩

/-- Witness for C5: dropping a `.git` entry changes nothing in either
variant. -/
theorem claim_C5_witness :
    CreateFileTree.skipEntry ".git" = true ∧
    FileTreeMakerV5.skipEntry ".git" = true ∧
    CreateFileTree.list_directory_as_tree "" true
      (.dir (.ok ([] ++ (".git", Node.file .bad) :: [("a.txt", Node.file .bad)]))) =
      CreateFileTree.list_directory_as_tree "" true
        (.dir (.ok ([] ++ [("a.txt", Node.file .bad)]))) ∧
    FileTreeMakerV5.list_directory_as_tree "" true
      (.dir (.ok ([] ++ (".git", Node.file .bad) :: [("a.txt", Node.file .bad)]))) =
      FileTreeMakerV5.list_directory_as_tree "" true
        (.dir (.ok ([] ++ [("a.txt", Node.file .bad)]))) :=
  ⟨by decide, by decide,
   (claim_C5 "" true [] [("a.txt", Node.file .bad)] ".git" (Node.file .bad)).1 (by decide),
   (claim_C5 "" true [] [("a.txt", Node.file .bad)] ".git" (Node.file .bad)).2.1 (by decide)⟩
